import Mathlib

/-!
Shallow embedding of the Audio Intelligence Engine of the TimoVisual demo:
the spectral feature extractor, tempo estimator (src/hooks/useAudioAnalyzer.ts)
and the procedural sequencer (src/utils/audioSynth.ts).

JavaScript numbers are modelled by rationals; a value that can be NaN
(obtained by reading a typed array out of range) is modelled by `Option ℚ`
with `none` playing the role of NaN, which propagates through arithmetic
and through `Math.max` / `Math.min` exactly as NaN does.
-/

/-- A JavaScript number that may be NaN (`none` = NaN). -/
abbrev JsNum := Option ℚ

/-- Addition on possibly-NaN numbers: NaN propagates. -/
def jadd : JsNum → JsNum → JsNum
  | some x, some y => some (x + y)
  | _, _ => none

/-- Subtraction on possibly-NaN numbers: NaN propagates. -/
def jsub : JsNum → JsNum → JsNum
  | some x, some y => some (x - y)
  | _, _ => none

/-- Multiplication on possibly-NaN numbers: NaN propagates. -/
def jmul : JsNum → JsNum → JsNum
  | some x, some y => some (x * y)
  | _, _ => none

/-- Division on possibly-NaN numbers: NaN propagates (only used with
nonzero denominators in this development). -/
def jdiv : JsNum → JsNum → JsNum
  | some x, some y => some (x / y)
  | _, _ => none

/-- `Math.max`: returns NaN if either argument is NaN. -/
def jmax : JsNum → JsNum → JsNum
  | some x, some y => some (max x y)
  | _, _ => none

/-- `Math.min`: returns NaN if either argument is NaN. -/
def jmin : JsNum → JsNum → JsNum
  | some x, some y => some (min x y)
  | _, _ => none

/-- `Math.round` on a (non-NaN) rational: JavaScript rounds half towards
positive infinity. -/
def jround (q : ℚ) : ℤ :=
  ⌊q + 1 / 2⌋

/-- Summation of `data[i]` over an explicit index list, accumulator style:
an out-of-range read yields `undefined`, and `sum += undefined` makes the
whole sum NaN. -/
def readSumAux (data : List ℚ) : List Nat → JsNum → JsNum
  | [], acc => acc
  | i :: is, acc => readSumAux data is (jadd acc (data.get? i))

/-- `let sum = 0; for (let i = lo; i < hi; i++) sum += data[i];`. -/
def readSum (data : List ℚ) (lo hi : Nat) : JsNum :=
  readSumAux data (List.range' lo (hi - lo)) (some 0)

/-- The adaptive-gain state of the feature extractor:
`maxVolumeRef` (the peak envelope, initial value 100) and `gainRef`
(the smoothed gain, initial value 1.0). -/
structure GainState where
  maxVolume : ℚ
  gain : ℚ
  deriving DecidableEq, Repr

/-- The initial gain state (`maxVolumeRef = 100`, `gainRef = 1.0`). -/
def initGainState : GainState :=
  { maxVolume := 100, gain := 1 }

/-- `let frameMax = 0; for (...) if (data[i] > frameMax) frameMax = data[i];`
(the loop runs over the actual frame length, so no out-of-range read). -/
def frameMaxOf (data : List ℚ) : ℚ :=
  data.foldl (fun m x => if m < x then x else m) 0

/-- `updateAutoGain` from src/hooks/useAudioAnalyzer.ts: fast-attack /
slow-release peak envelope, clamped at a floor of 50 before being used as
the normalisation denominator, then one-pole smoothing of the gain. -/
def updateAutoGain (data : List ℚ) (g : GainState) : GainState :=
  let frameMax := frameMaxOf data
  let newMax := if g.maxVolume < frameMax then frameMax else g.maxVolume * (995 / 1000)
  let safeMax := max newMax 50
  let targetGain := 255 / safeMax
  { maxVolume := newMax, gain := g.gain + (targetGain - g.gain) * (1 / 10) }

/-- The full mutable state of the analyzer hook: the gain state plus the
per-band history (`historyRef`).  History entries can hold NaN after a
short-frame poll, hence `JsNum`. -/
structure AnalyzerState where
  gainSt : GainState
  histBass : JsNum
  histMid : JsNum
  histHigh : JsNum
  deriving DecidableEq, Repr

/-- Initial analyzer state: history all zero, gain state initial. -/
def initAnalyzerState : AnalyzerState :=
  { gainSt := initGainState, histBass := some 0, histMid := some 0, histHigh := some 0 }

/-- `getBassEnergy` from src/hooks/useAudioAnalyzer.ts (the part after the
analyser-present guard): calls `updateAutoGain`, averages bins [0,4),
applies the gain, isolates the transient against the bass history and
returns `clamp(transient*2.5,·,255)*0.8 + currentAvg*0.2`, storing
`currentAvg` in the history. -/
def getBassEnergy (data : List ℚ) (s : AnalyzerState) : JsNum × AnalyzerState :=
  let g := updateAutoGain data s.gainSt
  let bassSum := readSum data 0 4
  let currentAvg := jmul (jdiv bassSum (some 4)) (some g.gain)
  let kickTransient := jmax (some 0) (jsub currentAvg s.histBass)
  let kickTransient2 := jmin (jmul kickTransient (some (5 / 2))) (some 255)
  let result := jadd (jmul kickTransient2 (some (4 / 5))) (jmul currentAvg (some (1 / 5)))
  (result, { s with gainSt := g, histBass := currentAvg })

/-- `getMidEnergy` from src/hooks/useAudioAnalyzer.ts: averages bins
[5,30) (the loop body runs 25 times regardless of the frame length, so
`count = 25`), applies the current gain without updating it, smooths into
the mid history and returns `min(history, 255)`. -/
def getMidEnergy (data : List ℚ) (s : AnalyzerState) : JsNum × AnalyzerState :=
  let midSum := readSum data 5 30
  let currentAvg := jmul (jdiv midSum (some 25)) (some s.gainSt.gain)
  let newMid := jadd (jmul s.histMid (some (4 / 5))) (jmul currentAvg (some (1 / 5)))
  (jmin newMid (some 255), { s with histMid := newMid })

/-- `getHighEnergy` from src/hooks/useAudioAnalyzer.ts: averages bins
[50, min(len,150)) — the only extractor whose loop bound is clamped to the
frame length — applies gain × 1.8, isolates the transient against the high
history and returns `min(transient*4, 255)`. -/
def getHighEnergy (data : List ℚ) (s : AnalyzerState) : JsNum × AnalyzerState :=
  let hi := min data.length 150
  let count := hi - 50
  let highSum := readSum data 50 hi
  let currentAvg :=
    if 0 < count then jmul (jmul (jdiv highSum (some (count : ℚ))) (some s.gainSt.gain)) (some (9 / 5))
    else some 0
  let highTransient := jmax (some 0) (jsub currentAvg s.histHigh)
  (jmin (jmul highTransient (some 4)) (some 255), { s with histHigh := currentAvg })

/-- The beat-detection state (`beatRef` in src/hooks/useAudioAnalyzer.ts). -/
structure BeatState where
  lastBeatTime : ℚ
  intervals : List ℚ
  threshold : ℚ
  minThreshold : ℚ
  deriving DecidableEq, Repr

/-- Initial beat state: `lastBeatTime = 0`, no intervals, `threshold = 0`,
`minThreshold = 80`. -/
def initBeatState : BeatState :=
  { lastBeatTime := 0, intervals := [], threshold := 0, minThreshold := 80 }

/-- The decayed adaptive threshold at the start of a `detectBpm` call:
`threshold *= 0.95`, floored at `minThreshold`. -/
def decayedThreshold (s : BeatState) : ℚ :=
  if s.threshold * (95 / 100) < s.minThreshold then s.minThreshold
  else s.threshold * (95 / 100)

/-- Mean of a list of rationals, as computed by
`intervals.reduce((a,b)=>a+b,0) / intervals.length`. -/
def meanQ (l : List ℚ) : ℚ :=
  l.foldl (fun a b => a + b) 0 / (l.length : ℚ)

/-- `detectBpm` from src/hooks/useAudioAnalyzer.ts, with the
`performance.now()` timestamp passed explicitly.  Decays the threshold,
tests the onset condition, applies the 250 ms debounce before updating
`lastBeatTime` and pushing a plausible interval into the bounded queue,
raises the threshold to `bassEnergy * 1.1` on any threshold crossing, and
finally returns `round(60000 / mean)` once at least 4 intervals exist. -/
def detectBpm (bassEnergy now : ℚ) (s0 : BeatState) : Option ℤ × BeatState :=
  let s1 := { s0 with threshold := decayedThreshold s0 }
  let s2 : BeatState :=
    if s1.threshold < bassEnergy ∧ s1.minThreshold < bassEnergy then
      let s3 : BeatState :=
        if 250 < now - s1.lastBeatTime then
          let interval := now - s1.lastBeatTime
          let s4 := { s1 with lastBeatTime := now }
          if 300 < interval ∧ interval < 1000 then
            let pushed := s4.intervals ++ [interval]
            { s4 with intervals := if 8 < pushed.length then pushed.tail else pushed }
          else s4
        else s1
      { s3 with threshold := bassEnergy * (11 / 10) }
    else s1
  let bpm : Option ℤ :=
    if 4 ≤ s2.intervals.length then some (jround (60000 / meanQ s2.intervals))
    else none
  (bpm, s2)

/-!
The procedural sequencer (class `TechnoSynth` in src/utils/audioSynth.ts).
`Math.random()` is modelled by consuming an explicit stream of rationals;
audio-node side effects are modelled as a list of emitted voice events, and
the mutable `delayGain.gain.value` / `delayNode.delayTime.value` parameters
as plain state fields.
-/

/-- One synthesized voice event, tagged with its scheduled time. -/
inductive SynthEvent where
  | kick (t : ℚ)
  | rumbleKick (t : ℚ)
  | hiHat (t : ℚ) (isOpen : Bool) (vol : ℚ)
  | bass (t : ℚ) (freq : ℚ)
  | industrialPerc (t : ℚ)
  | click (t : ℚ)
  deriving DecidableEq, Repr

/-- Draw the next `Math.random()` value from the stream. -/
def nextRand : List ℚ → ℚ × List ℚ
  | [] => (0, [])
  | r :: rs => (r, rs)

/-- The style string `'hard'`. -/
def hardStyle : String := "hard"

/-- The style string `'minimal'`. -/
def minimalStyle : String := "minimal"

/-- State of a `TechnoSynth` instance.  `delayGainValue` and
`delayTimeValue` model `delayGain.gain.value` and
`delayNode.delayTime.value`; `timerID` models the pending-timeout handle. -/
structure SequencerState where
  isPlaying : Bool
  tempo : ℚ
  style : String
  nextNoteTime : ℚ
  current16thNote : Nat
  timerID : Option Nat
  bassPattern : List ℚ
  delayGainValue : ℚ
  delayTimeValue : ℚ
  deriving DecidableEq, Repr

/-- One step of `generateMinimalPattern`'s map: hit probability 0.6 on
`stepInBar % 4 == 2`, else 0.2; on a hit the pitch is 55 Hz times an
interval drawn from `[1, 1.5]`. -/
def genMinimalStep (i : Nat) (rng : List ℚ) : ℚ × List ℚ :=
  let stepInBar := i % 16
  let probability : ℚ := if stepInBar % 4 = 2 then 3 / 5 else 1 / 5
  let (r, rng1) := nextRand rng
  if r < probability then
    let (r2, rng2) := nextRand rng1
    (55 * (([1, 3 / 2] : List ℚ).getD (⌊r2 * 2⌋).toNat 0), rng2)
  else (0, rng1)

/-- One step of `generateHardPattern`'s map: rolling 45 Hz bass with
probability 0.8 on non-quarter steps; otherwise a 0.3-probability octave
jump when `stepInBar > 12`. -/
def genHardStep (i : Nat) (rng : List ℚ) : ℚ × List ℚ :=
  let stepInBar := i % 16
  let root : ℚ := 45
  if stepInBar % 4 ≠ 0 then
    let (r, rng1) := nextRand rng
    if r < 4 / 5 then (root, rng1)
    else if 12 < stepInBar then
      let (r2, rng2) := nextRand rng1
      if r2 < 3 / 10 then (root * 2, rng2) else (0, rng2)
    else (0, rng1)
  else
    if 12 < stepInBar then
      let (r2, rng1) := nextRand rng
      if r2 < 3 / 10 then (root * 2, rng1) else (0, rng1)
    else (0, rng)

/-- Map a per-step generator over steps `i, i+1, ...` threading the random
stream, producing the 64-entry pattern table. -/
def genPattern (stepFn : Nat → List ℚ → ℚ × List ℚ) :
    Nat → Nat → List ℚ → List ℚ × List ℚ
  | 0, _, rng => ([], rng)
  | n + 1, i, rng =>
      let (v, rng1) := stepFn i rng
      let (rest, rng2) := genPattern stepFn n (i + 1) rng1
      (v :: rest, rng2)

/-- `generateMinimalPattern`: `Array(64).fill(0).map(...)`. -/
def generateMinimalPattern (rng : List ℚ) : List ℚ × List ℚ :=
  genPattern genMinimalStep 64 0 rng

/-- `generateHardPattern`: `Array(64).fill(0).map(...)`. -/
def generateHardPattern (rng : List ℚ) : List ℚ × List ℚ :=
  genPattern genHardStep 64 0 rng

/-- `regenerate(style?)` from src/utils/audioSynth.ts.  A truthy (present,
non-empty) style argument overwrites `this.style`; then the `'hard'` branch
or the `else` branch sets tempo, delay parameters and pattern. -/
def regenerate (style : Option String) (rng : List ℚ) (s : SequencerState) :
    SequencerState × List ℚ :=
  let s1 :=
    match style with
    | some st => if st = "" then s else { s with style := st }
    | none => s
  if s1.style = hardStyle then
    let (r, rng1) := nextRand rng
    let tempo : ℚ := 140 + (⌊r * 5⌋ : ℤ)
    let (pat, rng2) := generateHardPattern rng1
    ({ s1 with tempo := tempo, delayGainValue := 2 / 5,
               delayTimeValue := (60 / tempo) * (3 / 4), bassPattern := pat }, rng2)
  else
    let (r, rng1) := nextRand rng
    let tempo : ℚ := 126 + (⌊r * 4⌋ : ℤ)
    let (pat, rng2) := generateMinimalPattern rng1
    ({ s1 with tempo := tempo, delayGainValue := 1 / 10,
               delayTimeValue := (60 / tempo) * (1 / 2), bassPattern := pat }, rng2)

/-- The `TechnoSynth` constructor: field initialisers followed by
`this.regenerate(style)`. -/
def mkTechnoSynth (style : String) (rng : List ℚ) : SequencerState × List ℚ :=
  regenerate (some style) rng
    { isPlaying := false, tempo := 130, style := style, nextNoteTime := 0,
      current16thNote := 0, timerID := none, bassPattern := [],
      delayGainValue := 0, delayTimeValue := 375 / 1000 }

/-- `scheduleNote(stepIndex, time)`: fires the kick on quarters (rumble
kick in hard style), the style-dependent hats, the pattern-table bass and
the low-probability percussion, in source order, threading the random
stream through the probabilistic voices. -/
def scheduleNote (s : SequencerState) (stepIndex : Nat) (time : ℚ) (rng : List ℚ) :
    List SynthEvent × List ℚ :=
  let stepInBar := stepIndex % 16
  let kickEvs : List SynthEvent :=
    if stepInBar % 4 = 0 then
      if s.style = hardStyle then [SynthEvent.rumbleKick time] else [SynthEvent.kick time]
    else []
  let (hatEvs, rng1) :=
    if s.style = hardStyle then
      let open1 : List SynthEvent :=
        if stepInBar % 4 = 2 then [SynthEvent.hiHat time true 0] else []
      let closed1 : List SynthEvent :=
        if stepInBar % 2 ≠ 0 then [SynthEvent.hiHat time false 0] else []
      if stepInBar % 4 = 0 then
        let (r, rngA) := nextRand rng
        (open1 ++ closed1 ++ (if (1 : ℚ) / 2 < r then [SynthEvent.hiHat time true (1 / 10)] else []), rngA)
      else (open1 ++ closed1, rng)
    else
      if stepInBar % 4 = 2 then ([SynthEvent.hiHat time true 0], rng)
      else
        let (r, rngA) := nextRand rng
        ((if (7 : ℚ) / 10 < r then [SynthEvent.hiHat time false 0] else []), rngA)
  let bassEvs : List SynthEvent :=
    match s.bassPattern.get? stepIndex with
    | some f => if 0 < f then [SynthEvent.bass time f] else []
    | none => []
  let (percEvs, rng2) :=
    if s.style = hardStyle then
      let (r, rngA) := nextRand rng1
      ((if (97 : ℚ) / 100 < r then [SynthEvent.industrialPerc time] else []), rngA)
    else
      let (r, rngA) := nextRand rng1
      ((if (19 : ℚ) / 20 < r then [SynthEvent.click time] else []), rngA)
  (kickEvs ++ hatEvs ++ bassEvs ++ percEvs, rng2)

/-- `nextNote()`: advance `nextNoteTime` by a sixteenth note and advance
`current16thNote`, wrapping 64 to 0. -/
def nextNote (s : SequencerState) : SequencerState :=
  let secondsPerBeat := 60 / s.tempo
  { s with nextNoteTime := s.nextNoteTime + (1 / 4) * secondsPerBeat,
           current16thNote :=
             if s.current16thNote + 1 = 64 then 0 else s.current16thNote + 1 }

/-- The `while (nextNoteTime < currentTime + scheduleAheadTime)` loop of
`scheduler()`, with explicit fuel (the loop terminates because each
iteration advances `nextNoteTime` by a positive amount when the tempo is
positive). -/
def schedulerLoop : Nat → ℚ → SequencerState → List ℚ →
    SequencerState × List SynthEvent × List ℚ
  | 0, _, s, rng => (s, [], rng)
  | fuel + 1, currentTime, s, rng =>
      if s.nextNoteTime < currentTime + 1 / 10 then
        let (evs, rng1) := scheduleNote s s.current16thNote s.nextNoteTime rng
        let s1 := nextNote s
        let (s2, evs2, rng2) := schedulerLoop fuel currentTime s1 rng1
        (s2, evs ++ evs2, rng2)
      else (s, [], rng)

/-- `scheduler()`: run the look-ahead loop, then re-arm the timeout when
still playing (the timer handle value itself is opaque). -/
def scheduler (fuel : Nat) (currentTime : ℚ) (s : SequencerState) (rng : List ℚ) :
    SequencerState × List SynthEvent × List ℚ :=
  let (s1, evs, rng1) := schedulerLoop fuel currentTime s rng
  ({ s1 with timerID := if s1.isPlaying then some 1 else s1.timerID }, evs, rng1)

/-- `play()`: an early return when already playing; otherwise set
`isPlaying`, reset `current16thNote` to 0 and `nextNoteTime` to
`currentTime + 0.05`, then run the scheduler. -/
def play (fuel : Nat) (currentTime : ℚ) (s : SequencerState) (rng : List ℚ) :
    SequencerState × List SynthEvent × List ℚ :=
  if s.isPlaying then (s, [], rng)
  else
    scheduler fuel currentTime
      { s with isPlaying := true, current16thNote := 0, nextNoteTime := currentTime + 1 / 20 }
      rng

/-- `stop()`: clear the playing flag (clearing the host timeout is an
external effect; the stored handle is not modified by the source). -/
def stop (s : SequencerState) : SequencerState :=
  { s with isPlaying := false }

/-- Is an event one of the two kick voices (`playKick` / `playRumbleKick`)? -/
def isKickEvent : SynthEvent → Bool
  | SynthEvent.kick _ => true
  | SynthEvent.rumbleKick _ => true
  | _ => false

/-- Number of kick events in an event list. -/
def countKicks (l : List SynthEvent) : Nat :=
  (l.filter isKickEvent).length

/-- Advance the 16th-note counter the way `nextNote()` does (wrap 64 → 0). -/
def advance16 (n : Nat) : Nat :=
  if n + 1 = 64 then 0 else n + 1

/-- Step the scheduler body through `n` consecutive steps starting at
`step`, collecting all fired events: each iteration performs the
`scheduleNote(current16thNote, nextNoteTime); nextNote();` pair of the
look-ahead loop, with the per-step times abstracted as `timeOf`. -/
def runSteps (s : SequencerState) : Nat → Nat → (Nat → ℚ) → List ℚ →
    List SynthEvent × List ℚ
  | 0, _, _, rng => ([], rng)
  | n + 1, step, timeOf, rng =>
      let (evs, rng1) := scheduleNote s step (timeOf step) rng
      let (rest, rng2) := runSteps s n (advance16 step) timeOf rng1
      (evs ++ rest, rng2)

/-- The kick events that one bar's worth of hard-style steps should
produce: a rumble kick at every step whose counter is divisible by 4. -/
def kickListFrom : Nat → Nat → (Nat → ℚ) → List SynthEvent
  | 0, _, _ => []
  | n + 1, step, timeOf =>
      (if step % 4 = 0 then [SynthEvent.rumbleKick (timeOf step)] else []) ++
        kickListFrom n (advance16 step) timeOf

/-- A 256-bin frame of silence (the analyser's `frequencyBinCount` is
`fftSize / 2 = 256`). -/
def zeroFrame : List ℚ :=
  List.replicate 256 0


/-- A 256-bin frame with every magnitude at the maximum 255. -/
def fullFrame : List ℚ :=
  List.replicate 256 255


/-- Sample sequencer state used to instantiate hypotheses of the
sequencer theorems on concrete inputs. -/
def sampleSeqState : SequencerState :=
  { isPlaying := false, tempo := 130, style := minimalStyle, nextNoteTime := 0,
    current16thNote := 7, timerID := none, bassPattern := [],
    delayGainValue := 0, delayTimeValue := 375 / 1000 }


/-- A beat state in which a loud bass value arrives 100 ms after the last
accepted beat. -/
def beatStateC3 : BeatState :=
  { lastBeatTime := 1000, intervals := [], threshold := 80, minThreshold := 80 }


/-- A style string outside the specified set `{minimal, hard}`. -/
def jazzStyle : String := "jazz"


/-- A concrete hard-style sequencer state. -/
def hardSeqState : SequencerState :=
  { sampleSeqState with style := hardStyle }


/-- A sequence of polls of the gain-update step, one frame per call
(`fs.foldl` applies `updateAutoGain` in order). -/
def applyFrames (fs : List (List ℚ)) (g : GainState) : GainState :=
  fs.foldl (fun acc f => updateAutoGain f acc) g


/-- Is a possibly-NaN value a well-defined nonnegative number? -/
def jnonneg : JsNum → Bool
  | some x => decide (0 ≤ x)
  | none => false


/-- Is a possibly-NaN value a well-defined number within `[lo, hi]`? -/
def jinRange (lo hi : ℚ) : JsNum → Bool
  | some x => decide (lo ≤ x ∧ x ≤ hi)
  | none => false


/-- A spectral frame as the extractors require it: magnitudes in the byte
range `[0, 255]` and at least 30 bins, so that every unclamped bin read
(bass `[0,4)`, mid `[5,30)`) stays inside the frame.  The source always
polls frames of exactly 256 bins. -/
def validFrame (data : List ℚ) : Prop :=
  30 ≤ data.length ∧ ∀ x ∈ data, 0 ≤ x ∧ x ≤ 255


/-- Analyzer states reachable from the initial state by polling the three
extractors with valid frames, in any order. -/
inductive ReachableA : AnalyzerState → Prop where
  | init : ReachableA initAnalyzerState
  | stepBass (s : AnalyzerState) (f : List ℚ) :
      ReachableA s → validFrame f → ReachableA (getBassEnergy f s).2
  | stepMid (s : AnalyzerState) (f : List ℚ) :
      ReachableA s → validFrame f → ReachableA (getMidEnergy f s).2
  | stepHigh (s : AnalyzerState) (f : List ℚ) :
      ReachableA s → validFrame f → ReachableA (getHighEnergy f s).2


/-- The analyzer-state invariant: a positive gain, well-defined bass and
high histories, and a well-defined nonnegative mid history. -/
def GoodState (s : AnalyzerState) : Prop :=
  0 < s.gainSt.gain ∧ s.histBass.isSome = true ∧
    (∃ m, s.histMid = some m ∧ 0 ≤ m) ∧ s.histHigh.isSome = true


/-!  Basic facts about the NaN-propagating operations. -/

@[simp] theorem jadd_none_left (b : JsNum) : jadd none b = none := by
  cases b <;> rfl

@[simp] theorem jadd_none_right (a : JsNum) : jadd a none = none := by
  cases a <;> rfl

@[simp] theorem jadd_some_some (x y : ℚ) : jadd (some x) (some y) = some (x + y) := rfl

@[simp] theorem jsub_none_left (b : JsNum) : jsub none b = none := by
  cases b <;> rfl

@[simp] theorem jsub_none_right (a : JsNum) : jsub a none = none := by
  cases a <;> rfl

@[simp] theorem jsub_some_some (x y : ℚ) : jsub (some x) (some y) = some (x - y) := rfl

@[simp] theorem jmul_none_left (b : JsNum) : jmul none b = none := by
  cases b <;> rfl

@[simp] theorem jmul_none_right (a : JsNum) : jmul a none = none := by
  cases a <;> rfl

@[simp] theorem jmul_some_some (x y : ℚ) : jmul (some x) (some y) = some (x * y) := rfl

@[simp] theorem jdiv_none_left (b : JsNum) : jdiv none b = none := by
  cases b <;> rfl

@[simp] theorem jdiv_some_some (x y : ℚ) : jdiv (some x) (some y) = some (x / y) := rfl

@[simp] theorem jmax_none_right (a : JsNum) : jmax a none = none := by
  cases a <;> rfl

@[simp] theorem jmax_some_some (x y : ℚ) : jmax (some x) (some y) = some (max x y) := rfl

@[simp] theorem jmin_none_left (b : JsNum) : jmin none b = none := by
  cases b <;> rfl

@[simp] theorem jmin_some_some (x y : ℚ) : jmin (some x) (some y) = some (min x y) := rfl

/-!  Facts about the summation loops. -/

theorem readSumAux_none_acc (data : List ℚ) (idxs : List Nat) :
    readSumAux data idxs none = none := by
  induction idxs with
  | nil => rfl
  | cons i is ih => simpa [readSumAux] using ih

theorem readSumAux_none_of_mem (data : List ℚ) (idxs : List Nat) (i : Nat)
    (hmem : i ∈ idxs) (hnone : data.get? i = none) (acc : JsNum) :
    readSumAux data idxs acc = none := by
  induction idxs generalizing acc with
  | nil => cases hmem
  | cons j js ih =>
      rcases List.mem_cons.mp hmem with h | h
      · subst h
        rw [readSumAux, hnone, jadd_none_right]
        exact readSumAux_none_acc _ _
      · exact ih h _

theorem readSumAux_some (data : List ℚ) (idxs : List Nat)
    (hlt : ∀ i ∈ idxs, i < data.length) (a : ℚ) :
    ∃ v, readSumAux data idxs (some a) = some v := by
  induction idxs generalizing a with
  | nil => exact ⟨a, rfl⟩
  | cons j js ih =>
      have hj : j < data.length := hlt j (List.mem_cons_self j js)
      rw [readSumAux, List.get?_eq_get hj, jadd_some_some]
      exact ih (fun i hi => hlt i (List.mem_cons_of_mem _ hi)) _

theorem readSumAux_some_nonneg (data : List ℚ) (idxs : List Nat)
    (hlt : ∀ i ∈ idxs, i < data.length) (hpos : ∀ x ∈ data, 0 ≤ x) (a : ℚ)
    (ha : 0 ≤ a) : ∃ v, readSumAux data idxs (some a) = some v ∧ 0 ≤ v := by
  induction idxs generalizing a with
  | nil => exact ⟨a, rfl, ha⟩
  | cons j js ih =>
      have hj : j < data.length := hlt j (List.mem_cons_self j js)
      rw [readSumAux, List.get?_eq_get hj, jadd_some_some]
      exact ih (fun i hi => hlt i (List.mem_cons_of_mem _ hi)) _
        (add_nonneg ha (hpos _ (List.get_mem data j hj)))

theorem readSum_some (data : List ℚ) (lo hi : Nat) (hhi : hi ≤ data.length) :
    ∃ v, readSum data lo hi = some v := by
  refine readSumAux_some data _ (fun i hmem => ?_) 0
  have := List.mem_range'_1.mp hmem
  omega

theorem readSum_some_nonneg (data : List ℚ) (lo hi : Nat) (hhi : hi ≤ data.length)
    (hpos : ∀ x ∈ data, 0 ≤ x) : ∃ v, readSum data lo hi = some v ∧ 0 ≤ v := by
  refine readSumAux_some_nonneg data _ (fun i hmem => ?_) hpos 0 le_rfl
  have := List.mem_range'_1.mp hmem
  omega

theorem readSum_none_of_short (data : List ℚ) (lo hi : Nat) (hlo : lo < hi)
    (hlen : data.length < hi) : readSum data lo hi = none := by
  refine readSumAux_none_of_mem data _ (max lo data.length) ?_
    (List.get?_eq_none.mpr (le_max_right _ _)) _
  exact List.mem_range'_1.mpr ⟨le_max_left _ _, by omega⟩

theorem foldl_frameMax_const (c : ℚ) (n : Nat) :
    (List.replicate n c).foldl (fun m x => if m < x then x else m) c = c := by
  induction n with
  | zero => rfl
  | succ k ih => simpa [List.replicate_succ, List.foldl_cons] using ih

/-- The frame maximum of a constant frame with nonnegative level is that
level. -/
theorem frameMaxOf_replicate (n : Nat) (c : ℚ) (hn : 0 < n) (hc : 0 ≤ c) :
    frameMaxOf (List.replicate n c) = c := by
  obtain ⟨k, rfl⟩ : ∃ k, n = k + 1 := ⟨n - 1, by omega⟩
  rw [frameMaxOf, List.replicate_succ, List.foldl_cons]
  rcases lt_or_eq_of_le hc with h | h
  · rw [if_pos h]
    exact foldl_frameMax_const c k
  · rw [← h, if_neg (lt_irrefl 0)]
    exact foldl_frameMax_const 0 k

theorem readSumAux_replicate (n : Nat) (c : ℚ) (idxs : List Nat)
    (hlt : ∀ i ∈ idxs, i < n) (a : ℚ) :
    readSumAux (List.replicate n c) idxs (some a) = some (a + c * idxs.length) := by
  induction idxs generalizing a with
  | nil => simp [readSumAux]
  | cons j js ih =>
      have hj : j < n := hlt j (List.mem_cons_self j js)
      rw [readSumAux, List.get?_eq_getElem?, List.getElem?_replicate_of_lt hj,
        jadd_some_some, ih (fun i hi => hlt i (List.mem_cons_of_mem _ hi))]
      congr 1
      rw [List.length_cons]
      push_cast
      ring

/-- Sum of a constant frame over the bin range `[lo, hi)`. -/
theorem readSum_replicate (n : Nat) (c : ℚ) (lo hi : Nat) (hhi : hi ≤ n) :
    readSum (List.replicate n c) lo hi = some (c * (hi - lo : Nat)) := by
  rw [readSum, readSumAux_replicate n c _ (fun i hmem => by
    have := List.mem_range'_1.mp hmem
    omega), List.length_range']
  congr 1
  ring

/-- Claim C9: calling `stop()` twice in a row never errors (it is a total
state transformer) and the second call leaves the whole state — in
particular `current16thNote`, the step index — unchanged from its value
after the first call. -/
theorem stop_stop_idempotent (s : SequencerState) :
    stop (stop s) = stop s ∧
      (stop (stop s)).current16thNote = (stop s).current16thNote :=
  ⟨rfl, rfl⟩

/-- Claim C10: `play()` issued while already playing takes the early
return: the state is returned untouched (no reset of `current16thNote` or
`nextNoteTime`), no events fire and no randomness is consumed; from the
idle state, `play()` runs the scheduler on the state with `isPlaying` set,
`current16thNote` reset to 0 and `nextNoteTime` reset to
`currentTime + 0.05`. -/
theorem play_when_playing_noop (fuel : Nat) (currentTime : ℚ)
    (s : SequencerState) (rng : List ℚ) :
    (s.isPlaying = true → play fuel currentTime s rng = (s, [], rng)) ∧
      (s.isPlaying = false →
        play fuel currentTime s rng =
          scheduler fuel currentTime
            { s with isPlaying := true, current16thNote := 0,
                     nextNoteTime := currentTime + 1 / 20 } rng) := by
  constructor
  · intro h
    simp [play, h]
  · intro h
    simp [play, h]

/-- Witness for C10 at concrete inputs: a playing state is returned
unchanged, and an idle state goes through the reset-and-schedule branch. -/
theorem play_when_playing_noop_witness :
    play 2 5 { sampleSeqState with isPlaying := true } [] =
        ({ sampleSeqState with isPlaying := true }, [], []) ∧
      play 2 5 sampleSeqState [] =
        scheduler 2 5
          { sampleSeqState with isPlaying := true, current16thNote := 0,
                                nextNoteTime := 5 + 1 / 20 } [] :=
  ⟨(play_when_playing_noop 2 5 { sampleSeqState with isPlaying := true } []).1 rfl,
   (play_when_playing_noop 2 5 sampleSeqState []).2 rfl⟩

/-- Claim C6 (amended): only `getBassEnergy` invokes `updateAutoGain`;
`getMidEnergy` and `getHighEnergy` read the gain but leave the gain state
untouched. -/
theorem gain_update_only_in_bass (data : List ℚ) (s : AnalyzerState) :
    ((getBassEnergy data s).2).gainSt = updateAutoGain data s.gainSt ∧
      ((getMidEnergy data s).2).gainSt = s.gainSt ∧
      ((getHighEnergy data s).2).gainSt = s.gainSt :=
  ⟨rfl, rfl, rfl⟩

/-- Counterexample to claim C6 as stated: polling `getMidEnergy` leaves
the gain state exactly as it was, even on a frame for which the gain
update would have changed it — so mid (and high) do not apply gain
adaptation. -/
theorem gain_update_only_in_bass_counterexample :
    ((getMidEnergy zeroFrame initAnalyzerState).2).gainSt =
        initAnalyzerState.gainSt ∧
      ((getHighEnergy zeroFrame initAnalyzerState).2).gainSt =
        initAnalyzerState.gainSt ∧
      updateAutoGain zeroFrame initAnalyzerState.gainSt ≠
        initAnalyzerState.gainSt := by
  refine ⟨rfl, rfl, fun heq => ?_⟩
  have h1 : (updateAutoGain zeroFrame initAnalyzerState.gainSt).maxVolume = 199 / 2 := by
    rw [updateAutoGain, zeroFrame]
    rw [frameMaxOf_replicate 256 0 (by norm_num) le_rfl]
    simp [initAnalyzerState, initGainState]
    norm_num
  rw [heq] at h1
  simp [initAnalyzerState, initGainState] at h1
  norm_num at h1

/-- Claim C7: `detectBpm` is a total function (no input raises an error);
it returns `none` exactly when fewer than 4 intervals are recorded, and
otherwise `round(60000 / mean(intervals))` over the recorded intervals. -/
theorem detectBpm_output_format (b now : ℚ) (s : BeatState) :
    (detectBpm b now s).1 =
      (if 4 ≤ ((detectBpm b now s).2).intervals.length then
        some (jround (60000 / meanQ ((detectBpm b now s).2).intervals))
      else none) := rfl

/-- Claim C3 (amended): `lastBeatTime` is set to `now` exactly when the
onset is accepted (threshold crossing and the 250 ms debounce both pass);
but the adaptive threshold is raised to `bassEnergy * 1.1` on every
threshold crossing, debounced or not — only in the no-crossing case does
it keep its decayed value. -/
theorem detectBpm_beat_updates (b now : ℚ) (s : BeatState) :
    ((detectBpm b now s).2).lastBeatTime =
        (if (decayedThreshold s < b ∧ s.minThreshold < b) ∧ 250 < now - s.lastBeatTime
          then now else s.lastBeatTime) ∧
      ((detectBpm b now s).2).threshold =
        (if decayedThreshold s < b ∧ s.minThreshold < b then b * (11 / 10)
          else decayedThreshold s) := by
  by_cases hc : decayedThreshold s < b ∧ s.minThreshold < b
  · by_cases hd : 250 < now - s.lastBeatTime
    · by_cases hq : 300 < now - s.lastBeatTime ∧ now - s.lastBeatTime < 1000
      · simp [detectBpm, hc, hd, hq]
      · simp [detectBpm, hc, hd, hq]
    · simp [detectBpm, hc, hd]
  · simp [detectBpm, hc]

/-- Counterexample to claim C3 as stated: at `now = 1100`, a bass energy
of 200 crosses both thresholds but fails the 250 ms debounce
(`now - lastBeatTime = 100`); `lastBeatTime` is indeed left at 1000, yet
the adaptive threshold is still raised to `200 * 1.1 = 220` instead of
keeping its decayed value of 80 — so "neither update happens" is false. -/
theorem detectBpm_beat_updates_counterexample :
    decayedThreshold beatStateC3 = 80 ∧
      ((detectBpm 200 1100 beatStateC3).2).lastBeatTime = 1000 ∧
      ((detectBpm 200 1100 beatStateC3).2).threshold = 220 := by
  norm_num [detectBpm, decayedThreshold, beatStateC3]

/-- Claim C2 (amended): on a frame shorter than the bass range [0,4) the
bass extractor returns NaN (it does not clamp), on a frame shorter than
the mid range [5,30) the mid extractor returns NaN (it does not clamp);
only the high extractor clamps its iteration bound
(`min(data.length, 150)`) and returns a well-defined number on every
frame. -/
theorem short_frame_clamping (data : List ℚ) (s : AnalyzerState) :
    (data.length < 4 → (getBassEnergy data s).1 = none) ∧
      (data.length < 30 → (getMidEnergy data s).1 = none) ∧
      (s.histHigh.isSome = true → ((getHighEnergy data s).1).isSome = true) := by
  refine ⟨fun h4 => ?_, fun h30 => ?_, fun hsome => ?_⟩
  · have hsum : readSum data 0 4 = none :=
      readSum_none_of_short data 0 4 (by norm_num) h4
    simp [getBassEnergy, hsum]
  · have hsum : readSum data 5 30 = none :=
      readSum_none_of_short data 5 30 (by norm_num) h30
    simp [getMidEnergy, hsum]
  · obtain ⟨h, hh⟩ := Option.isSome_iff_exists.mp hsome
    obtain ⟨v, hv⟩ := readSum_some data 50 (min data.length 150) (min_le_left _ _)
    rw [getHighEnergy]
    split
    · simp [hv, hh, jmax, jmin, jmul, jsub, jdiv]
    · simp [hh, jmax, jmin, jmul, jsub]

/-- Witness for C2 (amended) on the concrete two-bin frame `[7, 7]`
starting from the initial analyzer state. -/
theorem short_frame_clamping_witness :
    (getBassEnergy [7, 7] initAnalyzerState).1 = none ∧
      (getMidEnergy [7, 7] initAnalyzerState).1 = none ∧
      ((getHighEnergy [7, 7] initAnalyzerState).1).isSome = true :=
  ⟨(short_frame_clamping [7, 7] initAnalyzerState).1 (by norm_num),
   (short_frame_clamping [7, 7] initAnalyzerState).2.1 (by norm_num),
   (short_frame_clamping [7, 7] initAnalyzerState).2.2 rfl⟩

/-- Counterexample to claim C2 as stated: on the three-bin frame
`[7, 7, 7]` — shorter than the bass range [0,4) and the mid range
[5,30) — `getBassEnergy` and `getMidEnergy` do not clamp their iteration
bounds: both read past the end of the frame and return NaN rather than a
well-defined number. -/
theorem short_frame_clamping_counterexample :
    (getBassEnergy [7, 7, 7] initAnalyzerState).1 = none ∧
      (getMidEnergy [7, 7, 7] initAnalyzerState).1 = none := by
  constructor
  · have hsum : readSum [(7 : ℚ), 7, 7] 0 4 = none :=
      readSum_none_of_short _ 0 4 (by norm_num) (by norm_num)
    simp [getBassEnergy, hsum]
  · have hsum : readSum [(7 : ℚ), 7, 7] 5 30 = none :=
      readSum_none_of_short _ 5 30 (by norm_num) (by norm_num)
    simp [getMidEnergy, hsum]

/-- Claim C5 (amended): requesting a style outside `{minimal, hard}` is
not rejected: `regenerate` stores the unknown style string and then runs
the `else` (minimal) branch — tempo `126 + ⌊rand*4⌋`, delay gain `0.1`,
and a freshly generated minimal pattern. -/
theorem regenerate_unknown_style_minimal (st : String) (rng : List ℚ)
    (s : SequencerState) (hne : st ≠ "") (hnh : st ≠ hardStyle) :
    ((regenerate (some st) rng s).1).style = st ∧
      ((regenerate (some st) rng s).1).tempo = 126 + ((⌊(nextRand rng).1 * 4⌋ : ℤ) : ℚ) ∧
      ((regenerate (some st) rng s).1).delayGainValue = 1 / 10 ∧
      ((regenerate (some st) rng s).1).bassPattern =
        (generateMinimalPattern (nextRand rng).2).1 := by
  rcases hr : nextRand rng with ⟨r, rng1⟩
  rcases hp : generateMinimalPattern rng1 with ⟨pat, rng2⟩
  simp [regenerate, hne, hnh, hr, hp]

/-- Witness for C5 (amended) at the concrete style `"jazz"` with an
all-zero random stream. -/
theorem regenerate_unknown_style_minimal_witness :
    ((regenerate (some jazzStyle) [] sampleSeqState).1).style = jazzStyle ∧
      ((regenerate (some jazzStyle) [] sampleSeqState).1).tempo =
        126 + ((⌊(0 : ℚ) * 4⌋ : ℤ) : ℚ) ∧
      ((regenerate (some jazzStyle) [] sampleSeqState).1).delayGainValue = 1 / 10 ∧
      ((regenerate (some jazzStyle) [] sampleSeqState).1).bassPattern =
        (generateMinimalPattern []).1 :=
  regenerate_unknown_style_minimal jazzStyle [] sampleSeqState
    (by decide) (by decide)

/-- Counterexample to claim C5 as stated: requesting the unknown style
`"jazz"` is not rejected — `regenerate` is a total state transformer with
no failure path; it silently executes the default (minimal) branch,
setting the minimal-range tempo 126, the minimal delay gain 0.1 and a
minimal-style pattern, while storing the unknown style string. -/
theorem regenerate_unknown_style_counterexample :
    ((regenerate (some jazzStyle) [] sampleSeqState).1).style = jazzStyle ∧
      ((regenerate (some jazzStyle) [] sampleSeqState).1).tempo = 126 ∧
      ((regenerate (some jazzStyle) [] sampleSeqState).1).delayGainValue = 1 / 10 ∧
      ((regenerate (some jazzStyle) [] sampleSeqState).1).bassPattern =
        (generateMinimalPattern []).1 := by
  rcases hp : generateMinimalPattern [] with ⟨pat, rng2⟩
  refine ⟨?_, ?_, ?_, ?_⟩ <;>
    simp [regenerate, jazzStyle, hardStyle, nextRand, hp]

/-- In hard style, the kick events of one `scheduleNote` call are exactly
one rumble kick on quarter steps and nothing otherwise, whatever random
values the hat/percussion voices draw and whatever the pattern holds. -/
theorem filter_kicks_scheduleNote (s : SequencerState) (hs : s.style = hardStyle)
    (i : Nat) (t : ℚ) (rng : List ℚ) :
    ((scheduleNote s i t rng).1).filter isKickEvent =
      if i % 4 = 0 then [SynthEvent.rumbleKick t] else [] := by
  have h4 : i % 16 % 4 = i % 4 := Nat.mod_mod_of_dvd i (by norm_num)
  rw [← h4]
  cases hb : s.bassPattern.get? i with
  | none =>
      simp only [scheduleNote, hs, hb]
      split_ifs <;> simp [isKickEvent]
  | some f =>
      simp only [scheduleNote, hs, hb]
      split_ifs <;> simp [isKickEvent]

/-- Stepping the hard-style scheduler body collects exactly the kicks
described by `kickListFrom`. -/
theorem filter_kicks_runSteps (s : SequencerState) (hs : s.style = hardStyle)
    (n : Nat) :
    ∀ (step : Nat) (timeOf : Nat → ℚ) (rng : List ℚ),
      ((runSteps s n step timeOf rng).1).filter isKickEvent =
        kickListFrom n step timeOf := by
  induction n with
  | zero => intro step timeOf rng; rfl
  | succ k ih =>
      intro step timeOf rng
      rw [runSteps, kickListFrom]
      simp only [List.filter_append, ih,
        filter_kicks_scheduleNote s hs step (timeOf step) rng]

/-- Claim C8: in hard style, stepping the scheduler through exactly one
bar (16 consecutive steps starting at a bar boundary `16*bar`) fires a
kick voice (`playRumbleKick`) on exactly the steps whose index within the
bar is 0, 4, 8 or 12 — 4 kick events per bar — regardless of the random
values drawn for the other voices and of the pattern table. -/
theorem hard_style_kicks_per_bar (bar : Nat) (s : SequencerState)
    (timeOf : Nat → ℚ) (rng : List ℚ) (hs : s.style = hardStyle)
    (hbar : bar < 4) :
    ((runSteps s 16 (16 * bar) timeOf rng).1).filter isKickEvent =
        [SynthEvent.rumbleKick (timeOf (16 * bar)),
         SynthEvent.rumbleKick (timeOf (16 * bar + 4)),
         SynthEvent.rumbleKick (timeOf (16 * bar + 8)),
         SynthEvent.rumbleKick (timeOf (16 * bar + 12))] ∧
      countKicks (runSteps s 16 (16 * bar) timeOf rng).1 = 4 := by
  have h := filter_kicks_runSteps s hs 16 (16 * bar) timeOf rng
  rw [countKicks, h]
  constructor <;> interval_cases bar <;> norm_num [kickListFrom, advance16]

/-- Witness for C8 on concrete inputs: the first bar of a hard-style
state fires exactly the four rumble kicks. -/
theorem hard_style_kicks_per_bar_witness :
    ((runSteps hardSeqState 16 (16 * 0) (fun _ => (0 : ℚ)) []).1).filter isKickEvent =
        [SynthEvent.rumbleKick 0, SynthEvent.rumbleKick 0,
         SynthEvent.rumbleKick 0, SynthEvent.rumbleKick 0] ∧
      countKicks (runSteps hardSeqState 16 (16 * 0) (fun _ => (0 : ℚ)) []).1 = 4 :=
  hard_style_kicks_per_bar 0 hardSeqState (fun _ => 0) [] rfl (by norm_num)

/-- One gain-update step keeps the gain positive and bounded: the floor
`safeMax = max(peakEnvelope, 50) ≥ 50` caps the target gain at
`255/50 = 5.1`. -/
theorem updateAutoGain_gain_pos (data : List ℚ) (g : GainState)
    (hg : 0 < g.gain) :
    0 < (updateAutoGain data g).gain ∧
      (updateAutoGain data g).gain ≤ max g.gain (51 / 10) := by
  rw [updateAutoGain]
  set newMax := if g.maxVolume < frameMaxOf data then frameMaxOf data
    else g.maxVolume * (995 / 1000) with hnm
  have h50 : (50 : ℚ) ≤ max newMax 50 := le_max_right _ _
  have htpos : 0 < 255 / max newMax 50 :=
    div_pos (by norm_num) (lt_of_lt_of_le (by norm_num) h50)
  have htle : 255 / max newMax 50 ≤ 51 / 10 := by
    calc 255 / max newMax 50 ≤ 255 / 50 :=
          div_le_div_of_nonneg_left (by norm_num) (by norm_num) h50
      _ = 51 / 10 := by norm_num
  constructor
  · simp only
    linarith
  · simp only
    have h1 : g.gain ≤ max g.gain (51 / 10) := le_max_left _ _
    have h2 : (51 : ℚ) / 10 ≤ max g.gain (51 / 10) := le_max_right _ _
    linarith

/-- Claim C4 (amended): for every sequence of gain-update calls, the
quantity actually used as the normalisation denominator is floored at 50,
so the smoothed gain stays positive and never exceeds
`max(initial gain, 5.1)` — the stored peak envelope itself, however, can
decay below 50 (see the counterexample). -/
theorem applyFrames_gain_bounded (fs : List (List ℚ)) (g : GainState)
    (hg : 0 < g.gain) :
    0 < (applyFrames fs g).gain ∧
      (applyFrames fs g).gain ≤ max g.gain (51 / 10) := by
  induction fs generalizing g with
  | nil => exact ⟨hg, le_max_left _ _⟩
  | cons f fs ih =>
      obtain ⟨hpos, hle⟩ := updateAutoGain_gain_pos f g hg
      obtain ⟨hpos', hle'⟩ := ih (updateAutoGain f g) hpos
      refine ⟨hpos', le_trans hle' (max_le (le_trans hle ?_) (le_max_right _ _))⟩
      exact le_refl _

/-- Witness for C4 (amended): one all-zero 256-bin frame from the initial
gain state. -/
theorem applyFrames_gain_bounded_witness :
    0 < (applyFrames [zeroFrame] initGainState).gain ∧
      (applyFrames [zeroFrame] initGainState).gain ≤ max initGainState.gain (51 / 10) :=
  applyFrames_gain_bounded [zeroFrame] initGainState (by norm_num [initGainState])

/-- On all-zero frames starting from a nonnegative envelope, the stored
peak envelope decays geometrically: after `n` calls it is
`maxVolume * 0.995^n`. -/
theorem applyFrames_zero_decay (n : Nat) (g : GainState) (hmv : 0 ≤ g.maxVolume) :
    (applyFrames (List.replicate n zeroFrame) g).maxVolume =
      g.maxVolume * (995 / 1000) ^ n := by
  induction n generalizing g with
  | zero => simp [applyFrames]
  | succ k ih =>
      rw [List.replicate_succ]
      have hfm : frameMaxOf zeroFrame = 0 := by
        rw [zeroFrame]
        exact frameMaxOf_replicate 256 0 (by norm_num) le_rfl
      have hstep : (updateAutoGain zeroFrame g).maxVolume = g.maxVolume * (995 / 1000) := by
        rw [updateAutoGain, hfm, if_neg (not_lt.mpr hmv)]
      have hmv' : 0 ≤ (updateAutoGain zeroFrame g).maxVolume := by
        rw [hstep]
        exact mul_nonneg hmv (by norm_num)
      calc (applyFrames (zeroFrame :: List.replicate k zeroFrame) g).maxVolume
        = (applyFrames (List.replicate k zeroFrame) (updateAutoGain zeroFrame g)).maxVolume := rfl
        _ = (updateAutoGain zeroFrame g).maxVolume * (995 / 1000) ^ k := ih _ hmv'
        _ = g.maxVolume * (995 / 1000) ^ (k + 1) := by rw [hstep]; ring

/-- Counterexample to claim C4 as stated: after 139 consecutive all-zero
frames starting from the initial state, the stored peak envelope
`maxVolumeRef` has decayed to `100 * 0.995^139 ≈ 49.8`, strictly below the
floor value 50 — the floor is only applied to the derived `safeMax`, never
to the stored envelope. -/
theorem applyFrames_envelope_below_floor_counterexample :
    (applyFrames (List.replicate 139 zeroFrame) initGainState).maxVolume < 50 := by
  rw [applyFrames_zero_decay 139 initGainState (by norm_num [initGainState])]
  rw [initGainState]
  norm_num

/-- On a valid frame with positive gain and a well-defined bass history,
the bass extractor returns a well-defined nonnegative value and keeps the
history well-defined. -/
theorem bass_poll_props (f : List ℚ) (s : AnalyzerState) (hf : validFrame f)
    (hg : 0 < s.gainSt.gain) (hb : s.histBass.isSome = true) :
    jnonneg (getBassEnergy f s).1 = true ∧
      ((getBassEnergy f s).2).histBass.isSome = true := by
  obtain ⟨hlen, hval⟩ := hf
  obtain ⟨sb, hsb, hsb0⟩ :=
    readSum_some_nonneg f 0 4 (by omega) (fun x hx => (hval x hx).1)
  obtain ⟨b, hbv⟩ := Option.isSome_iff_exists.mp hb
  have hgain : 0 < (updateAutoGain f s.gainSt).gain :=
    (updateAutoGain_gain_pos f s.gainSt hg).1
  rw [getBassEnergy]
  simp only [hsb, hbv, jdiv_some_some, jmul_some_some, jsub_some_some,
    jmax_some_some, jmin_some_some, jadd_some_some]
  refine ⟨?_, rfl⟩
  simp only [jnonneg, decide_eq_true_eq]
  have hc : 0 ≤ sb / 4 * (updateAutoGain f s.gainSt).gain :=
    mul_nonneg (div_nonneg hsb0 (by norm_num)) hgain.le
  have hmax : (0 : ℚ) ≤ max 0 (sb / 4 * (updateAutoGain f s.gainSt).gain - b) :=
    le_max_left 0 _
  have hmin : (0 : ℚ) ≤
      min (max 0 (sb / 4 * (updateAutoGain f s.gainSt).gain - b) * (5 / 2)) 255 :=
    le_min (mul_nonneg hmax (by norm_num)) (by norm_num)
  have := mul_nonneg hmin (show (0 : ℚ) ≤ 4 / 5 by norm_num)
  have := mul_nonneg hc (show (0 : ℚ) ≤ 1 / 5 by norm_num)
  linarith

/-- On a valid frame with positive gain and a well-defined nonnegative
mid history, the mid extractor returns a value in `[0, 255]` and keeps
the mid history well-defined and nonnegative. -/
theorem mid_poll_props (f : List ℚ) (s : AnalyzerState) (hf : validFrame f)
    (hg : 0 < s.gainSt.gain) (hm : ∃ m, s.histMid = some m ∧ 0 ≤ m) :
    jinRange 0 255 (getMidEnergy f s).1 = true ∧
      ∃ m, ((getMidEnergy f s).2).histMid = some m ∧ 0 ≤ m := by
  obtain ⟨hlen, hval⟩ := hf
  obtain ⟨sm, hsm, hsm0⟩ :=
    readSum_some_nonneg f 5 30 (by omega) (fun x hx => (hval x hx).1)
  obtain ⟨m, hmv, hm0⟩ := hm
  have hc : 0 ≤ sm / 25 * s.gainSt.gain :=
    mul_nonneg (div_nonneg hsm0 (by norm_num)) hg.le
  have hnm : 0 ≤ m * (4 / 5) + sm / 25 * s.gainSt.gain * (1 / 5) := by
    have := mul_nonneg hm0 (show (0 : ℚ) ≤ 4 / 5 by norm_num)
    have := mul_nonneg hc (show (0 : ℚ) ≤ 1 / 5 by norm_num)
    linarith
  rw [getMidEnergy]
  simp only [hsm, hmv, jdiv_some_some, jmul_some_some, jadd_some_some,
    jmin_some_some]
  refine ⟨?_, ⟨_, rfl, hnm⟩⟩
  simp only [jinRange, decide_eq_true_eq]
  exact ⟨le_min hnm (by norm_num), min_le_right _ _⟩

/-- With a well-defined high history the high extractor returns a value
in `[0, 255]` on every frame (its loop bound is clamped) and keeps the
history well-defined. -/
theorem high_poll_props (f : List ℚ) (s : AnalyzerState)
    (hh : s.histHigh.isSome = true) :
    jinRange 0 255 (getHighEnergy f s).1 = true ∧
      ((getHighEnergy f s).2).histHigh.isSome = true := by
  obtain ⟨h, hhv⟩ := Option.isSome_iff_exists.mp hh
  obtain ⟨sv, hsv⟩ := readSum_some f 50 (min f.length 150) (min_le_left _ _)
  rw [getHighEnergy]
  have final : ∀ c : ℚ,
      jinRange 0 255 (jmin (jmul (jmax (some 0) (jsub (some c) s.histHigh)) (some 4))
        (some 255)) = true := by
    intro c
    rw [hhv]
    simp only [jsub_some_some, jmax_some_some, jmul_some_some, jmin_some_some,
      jinRange, decide_eq_true_eq]
    constructor
    · exact le_min (mul_nonneg (le_max_left 0 _) (by norm_num)) (by norm_num)
    · exact min_le_right _ _
  split
  · rw [hsv]
    simp only [jdiv_some_some, jmul_some_some]
    exact ⟨final _, rfl⟩
  · exact ⟨final 0, rfl⟩

/-- Every reachable analyzer state satisfies the invariant. -/
theorem goodState_of_reachable (s : AnalyzerState) (hr : ReachableA s) :
    GoodState s := by
  induction hr with
  | init =>
      exact ⟨by norm_num [initAnalyzerState, initGainState], rfl, ⟨0, rfl, le_refl 0⟩, rfl⟩
  | stepBass s f _ hf ih =>
      obtain ⟨hg, hb, hm, hh⟩ := ih
      exact ⟨(updateAutoGain_gain_pos f s.gainSt hg).1,
        (bass_poll_props f s hf hg hb).2, hm, hh⟩
  | stepMid s f _ hf ih =>
      obtain ⟨hg, hb, hm, hh⟩ := ih
      exact ⟨hg, hb, (mid_poll_props f s hf hg hm).2, hh⟩
  | stepHigh s f _ hf ih =>
      obtain ⟨hg, hb, hm, hh⟩ := ih
      exact ⟨hg, hb, hm, (high_poll_props f s hh).2⟩

/-- Claim C1 (amended): polling any reachable analyzer state with a valid
frame, the mid and high extractors return well-defined values in
`[0, 255]`; the bass extractor returns a well-defined nonnegative value,
but it is not bounded by 255 (see the counterexample). -/
theorem extractor_output_ranges (s : AnalyzerState) (f : List ℚ)
    (hr : ReachableA s) (hf : validFrame f) :
    jnonneg (getBassEnergy f s).1 = true ∧
      jinRange 0 255 (getMidEnergy f s).1 = true ∧
      jinRange 0 255 (getHighEnergy f s).1 = true := by
  obtain ⟨hg, hb, hm, hh⟩ := goodState_of_reachable s hr
  exact ⟨(bass_poll_props f s hf hg hb).1, (mid_poll_props f s hf hg hm).1,
    (high_poll_props f s hh).1⟩

/-- Witness for C1 (amended): the initial state polled with the all-zero
256-bin frame. -/
theorem extractor_output_ranges_witness :
    jnonneg (getBassEnergy zeroFrame initAnalyzerState).1 = true ∧
      jinRange 0 255 (getMidEnergy zeroFrame initAnalyzerState).1 = true ∧
      jinRange 0 255 (getHighEnergy zeroFrame initAnalyzerState).1 = true :=
  extractor_output_ranges initAnalyzerState zeroFrame ReachableA.init
    (by
      refine ⟨by rw [zeroFrame, List.length_replicate]; norm_num, fun x hx => ?_⟩
      rw [zeroFrame, List.mem_replicate] at hx
      rw [hx.2]
      norm_num)

/-- The all-zero 256-bin frame is a valid frame. -/
theorem validFrame_zeroFrame : validFrame zeroFrame := by
  refine ⟨by rw [zeroFrame, List.length_replicate]; norm_num, fun x hx => ?_⟩
  rw [zeroFrame, List.mem_replicate] at hx
  rw [hx.2]
  norm_num

/-- The all-255 256-bin frame is a valid frame. -/
theorem validFrame_fullFrame : validFrame fullFrame := by
  refine ⟨by rw [fullFrame, List.length_replicate]; norm_num, fun x hx => ?_⟩
  rw [fullFrame, List.mem_replicate] at hx
  rw [hx.2]
  norm_num

/-- Counterexample to claim C1 as stated: poll the bass extractor once
with a silent 256-bin frame (the gain rises towards the silence target),
then once with a full-scale 256-bin frame.  The second poll returns
`5217249/19900 ≈ 262.2`, a well-defined nonnegative value strictly above
255 — the 255 clamp is applied to the transient part only, and the 20%
raw-body blend `currentAvg * 0.2` pushes the sum past 255 whenever the
smoothed gain exceeds 1. -/
theorem extractor_output_ranges_counterexample :
    validFrame zeroFrame ∧ validFrame fullFrame ∧
      ReachableA (getBassEnergy zeroFrame initAnalyzerState).2 ∧
      (getBassEnergy fullFrame (getBassEnergy zeroFrame initAnalyzerState).2).1 =
        some (5217249 / 19900) ∧
      jinRange 0 255
        (getBassEnergy fullFrame (getBassEnergy zeroFrame initAnalyzerState).2).1 =
        false := by
  have hfm0 : frameMaxOf zeroFrame = 0 := by
    rw [zeroFrame]
    exact frameMaxOf_replicate 256 0 (by norm_num) le_rfl
  have hrs0 : readSum zeroFrame 0 4 = some 0 := by
    rw [zeroFrame, readSum_replicate 256 0 0 4 (by norm_num)]
    norm_num
  have hfm1 : frameMaxOf fullFrame = 255 := by
    rw [fullFrame]
    exact frameMaxOf_replicate 256 255 (by norm_num) (by norm_num)
  have hrs1 : readSum fullFrame 0 4 = some 1020 := by
    rw [fullFrame, readSum_replicate 256 255 0 4 (by norm_num)]
    norm_num
  have e1 : (getBassEnergy zeroFrame initAnalyzerState).2 =
      { gainSt := { maxVolume := 199 / 2, gain := 2301 / 1990 },
        histBass := some 0, histMid := some 0, histHigh := some 0 } := by
    simp only [getBassEnergy, updateAutoGain, hfm0, hrs0, initAnalyzerState,
      initGainState, jdiv_some_some, jmul_some_some]
    norm_num [max_def]
  have e2 : (getBassEnergy fullFrame (getBassEnergy zeroFrame initAnalyzerState).2).1 =
      some (5217249 / 19900) := by
    rw [e1]
    simp only [getBassEnergy, updateAutoGain, hfm1, hrs1, jdiv_some_some,
      jmul_some_some, jsub_some_some, jmax_some_some, jmin_some_some,
      jadd_some_some]
    norm_num [max_def, min_def]
  refine ⟨validFrame_zeroFrame, validFrame_fullFrame,
    ReachableA.stepBass _ _ ReachableA.init validFrame_zeroFrame, e2, ?_⟩
  rw [e2]
  simp only [jinRange, decide_eq_false_iff_not]
  intro h
  have := h.2
  norm_num at this
